import Mathlib

/-!
Shallow embedding of the AUTO session-orchestration core (a Go program) and
proofs about it.  The embedded code comes from:

  * `internal/agent/agent.go`            — Status, Registry, WatchAll
  * `internal/agent/providers/opencode/opencode.go`
                                         — file-watch OpenCodeAgent, Provider.Discover
  * the CLI-variant opencode provider    — CLI OpenCodeAgent.Update / determineStatus
  * `internal/session` Manager           — Spawn/Terminate/SendInput/Search/Refresh
  * the `internal/store` SQLite Store    — SaveSession, AppendOutput, GetOutput, Cleanup

Conventions:
  * Go `time.Time` values are modelled as `Int` timestamps; for the agent model
    the unit is milliseconds (the upstream session files carry ms since epoch),
    for the store the unit is seconds.  Overflow does not occur in any embedded
    computation, so plain `Int` is faithful.
  * Go strings are byte strings; where byte-level behaviour matters
    (`containsIgnoreCase` indexes bytes) we work on the UTF-8 byte list of the
    Lean `String`, which coincides with the Go byte sequence.
  * Go maps are modelled as association lists with overwrite-on-insert
    (`mset`), first-match lookup (`mlook`) and key deletion by filtering.
    Go map iteration order is unspecified; every theorem below is insensitive
    to that order except where a comment notes the modelling choice.
-/

namespace AUTO

/-- Agent status, from `internal/agent/agent.go` (`Status` constants). -/
inductive St where
  | pending
  | running
  | idle
  | completed
  | errored
  | contextLimit
  | cancelled
deriving DecidableEq, Repr

/-! ## Go strings as byte lists -/

/-- UTF-8 encoding of one code point, byte values as `Nat`.
Mirrors how a Go string literal stores its bytes. -/
def utf8Bytes (c : Nat) : List Nat :=
  if c < 0x80 then [c]
  else if c < 0x800 then
    [0xC0 ||| (c >>> 6), 0x80 ||| (c &&& 0x3F)]
  else if c < 0x10000 then
    [0xE0 ||| (c >>> 12), 0x80 ||| ((c >>> 6) &&& 0x3F), 0x80 ||| (c &&& 0x3F)]
  else
    [0xF0 ||| (c >>> 18), 0x80 ||| ((c >>> 12) &&& 0x3F),
     0x80 ||| ((c >>> 6) &&& 0x3F), 0x80 ||| (c &&& 0x3F)]

/-- The byte sequence of a Go string (UTF-8 bytes of the text). -/
def goBytes (s : String) : List Nat :=
  s.data.flatMap fun c => utf8Bytes c.toNat

/-- `equalFold` from the session manager (`internal/session`): byte-wise
comparison after folding ASCII upper case to lower case (`sr += 'a' - 'A'`). -/
def foldByte (b : Nat) : Nat :=
  if 65 ≤ b ∧ b ≤ 90 then b + 32 else b

/-- Byte-list core of `equalFold(s, t string) bool`. -/
def equalFold (s t : List Nat) : Bool :=
  s.length == t.length &&
    (List.zip s t).all fun p => foldByte p.1 == foldByte p.2

/-- Byte-list core of `containsIgnoreCase(s, substr string) bool`:
`if subl > sl return false; for i := 0; i <= sl-subl; i++ { if equalFold(s[i:i+subl], substr) return true }`. -/
def byteContains (s sub : List Nat) : Bool :=
  if sub.length > s.length then false
  else (List.range (s.length - sub.length + 1)).any fun i =>
    equalFold ((s.drop i).take sub.length) sub

/-- `containsIgnoreCase` on Go strings (byte-level, as in the source). -/
def containsIgnoreCase (s sub : String) : Bool :=
  byteContains (goBytes s) (goBytes sub)

/-! ## Go maps as association lists -/

/-- Association-list map keyed by `String` (models a Go `map[string]V`). -/
abbrev AMap (V : Type) := List (String × V)

/-- Map lookup: `v, ok := m[k]` (first matching entry wins; `mset` keeps keys
unique, so this is exactly the Go map lookup). -/
def mlook {V : Type} : AMap V → String → Option V
  | [], _ => none
  | p :: rest, k => if p.1 == k then some p.2 else mlook rest k

/-- Map insert with overwrite: `m[k] = v`. -/
def mset {V : Type} (m : AMap V) (k : String) (v : V) : AMap V :=
  (k, v) :: m.filter fun p => p.1 ≠ k

/-! ## File-watch opencode agent (`providers/opencode/opencode.go`)

Timestamps are milliseconds since epoch (`time.created` in the storage files
is ms; Go durations are compared against the same clock).  `now` is the value
of `time.Now()` at the call. -/

/-- A message part as read from `part/<message-id>/*.json`: only the fields
`determineStatus` consumes (`state`, `time.created`). -/
structure Part where
  state : String
  created : Int
deriving DecidableEq, Repr

/-- A message with its parts, in scan order: messages in `a.messages` order,
parts in the directory-listing order of `part/<message-id>/`. -/
structure Msg where
  created : Int
  parts : List Part
deriving DecidableEq, Repr

/-- Inner loop of `determineStatus` over one message's parts:
`if part.State == "running" { running, lastActivity = now; return }`
`if part.State == "error" && timeSinceLastActivity < 5*time.Minute { errored, lastActivity = part.Time.Created; return }`. -/
def scanParts (delta : Int) (now : Int) : List Part → Option (St × Int)
  | [] => none
  | p :: rest =>
    if p.state == "running" then some (St.running, now)
    else if p.state == "error" && decide (delta < 300000) then some (St.errored, p.created)
    else scanParts delta now rest

/-- Outer loop of `determineStatus` over all messages. -/
def scanMsgs (delta : Int) (now : Int) : List Msg → Option (St × Int)
  | [] => none
  | m :: rest =>
    match scanParts delta now m.parts with
    | some r => some r
    | none => scanMsgs delta now rest

/-- `OpenCodeAgent.determineStatus` (opencode.go:246-293), as a function from
the loaded message/part history, the current last-activity value and the
current time to the new `(status, lastActivity)` pair.
`delta = time.Since(lastMsgTime)` where `lastMsgTime` is the creation time of
the last message; 60 s = 60000 ms, 5 min = 300000 ms, 30 min = 1800000 ms. -/
def determineStatus (la : Int) (msgs : List Msg) (now : Int) : St × Int :=
  match msgs.getLast? with
  | none => (St.pending, la)
  | some lastMsg =>
    let delta := now - lastMsg.created
    match scanMsgs delta now msgs with
    | some r => r
    | none =>
      let st :=
        if delta < 60000 then St.running
        else if delta < 1800000 then St.idle
        else St.completed
      (st, lastMsg.created)

/-- `OpenCodeAgent.determineStatusFast` (opencode.go:220-230): pure
time-window classification of `time.Since(a.lastActivity)`. -/
def determineStatusFast (delta : Int) : St :=
  if delta < 60000 then St.running
  else if delta < 1800000 then St.idle
  else St.completed

/-- The mutable agent state that the status claims are about. -/
structure AgState where
  status : St
  lastActivity : Int
deriving DecidableEq, Repr

/-- `OpenCodeAgent.Terminate` (opencode.go:465-472): sets
`a.status = agent.StatusCancelled` and returns nil. -/
def agTerminate (a : AgState) : AgState :=
  { a with status := St.cancelled }

/-- The status/lastActivity effect of `OpenCodeAgent.Refresh`
(opencode.go:314-343): re-reads the session file (`updated` is its
`time.updated`), sets `a.lastActivity = time.UnixMilli(session.Time.Updated)`,
reloads messages, then calls `determineStatus`. -/
def agRefresh (_a : AgState) (updated : Int) (msgs : List Msg) (now : Int) : AgState :=
  let la := updated
  let r := determineStatus la msgs now
  { status := r.1, lastActivity := r.2 }

/-! ## CLI-variant opencode agent (poll provider) -/

/-- CLI agent `determineStatus`: time-window only
(`timeSinceUpdate := time.Since(a.lastActivity)`). -/
def cliDetermineStatus (delta : Int) : St :=
  if delta < 60000 then St.running
  else if delta < 1800000 then St.idle
  else St.completed

/-- CLI agent `Update(session CLISession)`: sets `name`, sets
`lastActivity = time.UnixMilli(session.Updated)`, then re-derives the status
from the new last activity. -/
def cliUpdate (_a : AgState) (updated : Int) (now : Int) : AgState :=
  { status := cliDetermineStatus (now - updated), lastActivity := updated }

/-! ## Reference-policy reading of the status derivation (spec §4.1)

`determineStatusSpec` is written from the AMENDED wording of claim C5: the
first part in scan order that is either `running` or a recent `error`
determines the outcome; with no such part the no-messages / time-window rules
apply.  The refinement theorem below proves the code equal to it. -/

/-- Does this part trigger an early status decision? -/
def partTriggers (delta : Int) (p : Part) : Bool :=
  p.state == "running" || (p.state == "error" && decide (delta < 300000))

/-- Status derivation as described by the amended reference policy. -/
def determineStatusSpec (la : Int) (msgs : List Msg) (now : Int) : St × Int :=
  match msgs.getLast? with
  | none => (St.pending, la)
  | some lastMsg =>
    let delta := now - lastMsg.created
    match (msgs.flatMap (·.parts)).find? (partTriggers delta) with
    | some p =>
      if p.state == "running" then (St.running, now) else (St.errored, p.created)
    | none =>
      let st :=
        if delta < 60000 then St.running
        else if delta < 1800000 then St.idle
        else St.completed
      (st, lastMsg.created)

/-! ## Session manager (`internal/session`) -/

/-- An agent as seen by the session manager: the identity fields the manager
reads, plus the responses its `Terminate`/`SendInput` methods produce (the
manager delegates and returns whatever the agent returns; errors are modelled
as `Option String`, `none` = nil error). -/
structure MAgent where
  aid : String
  name : String
  directory : String
  currentTask : String
  termResult : Option String
  inputResult : String → Option String

/-- The manager's live map `m.agents : map[string]agent.Agent`. -/
abbrev LiveMap := AMap MAgent

/-- `Manager.Terminate(id)` (session manager, lines 196-206): look the id up
under the read lock; unknown id returns nil; otherwise delegate to
`a.Terminate()`.  The pair is (returned error, live map afterwards) — the
method never mutates the map. -/
def managerTerminate (m : LiveMap) (id : String) : Option String × LiveMap :=
  match mlook m id with
  | none => (none, m)
  | some a => (a.termResult, m)

/-- `Manager.SendInput(id, input)` (lines 209-219): same shape. -/
def managerSendInput (m : LiveMap) (id : String) (input : String) :
    Option String × LiveMap :=
  match mlook m id with
  | none => (none, m)
  | some a => (a.inputResult input, m)

/-- `Manager.Search(query)` (lines 337-352): filter the live map values by a
case-insensitive substring match over name, id, directory and current task.
Go map iteration order is unspecified; the list order here is the map's
representation order, and every statement proved about `managerSearch` is
order-insensitive. -/
def managerSearch (m : LiveMap) (query : String) : List MAgent :=
  (m.map (·.2)).filter fun a =>
    containsIgnoreCase a.name query ||
    containsIgnoreCase a.aid query ||
    containsIgnoreCase a.directory query ||
    containsIgnoreCase a.currentTask query

/-- `Manager.Refresh(ctx)` (lines 390-414) with the discovery result `S`
passed explicitly: first `m.agents[a.ID()] = a` for every discovered agent
(also building `seen`), then delete every key not in `seen`. -/
def managerRefresh (m : LiveMap) (S : List MAgent) : LiveMap :=
  let m1 := S.foldl (fun acc a => mset acc a.aid a) m
  m1.filter fun p => S.any fun a => a.aid == p.1

/-- The last agent in `S` whose id is `k` — the value that ends up under key
`k` after the overwrite loop of `managerRefresh` (later discoveries win). -/
def lastMatch (S : List MAgent) (k : String) : Option MAgent :=
  match S with
  | [] => none
  | a :: rest =>
    match lastMatch rest k with
    | some b => some b
    | none => if a.aid == k then some a else none

/-! ## Registry and `Manager.Spawn` -/

/-- Spawn configuration (`agent.SpawnConfig`); fields the spawn path reads. -/
structure SpawnCfg where
  ctype : String
  name : String
  directory : String
  prompt : String
deriving DecidableEq, Repr

/-- A registered provider: its type tag and the outcome its `Spawn` produces
for a given config. -/
structure ProviderM where
  ptype : String
  spawnFn : SpawnCfg → Except String MAgent

/-- `Registry.providers : map[string]Provider`, keyed by `provider.Type()`.
The Go map's iteration order is unspecified; this model keeps registration
order, so `registryList` head = first registered provider (with a single
registered provider — the shipped configuration — the two coincide). -/
abbrev RegistryM := AMap ProviderM

/-- `Registry.Register` (agent.go:229-231). -/
def registryRegister (r : RegistryM) (p : ProviderM) : RegistryM :=
  mset r p.ptype p

/-- `Registry.Get` (agent.go:234-237). -/
def registryGet (r : RegistryM) (t : String) : Option ProviderM :=
  mlook r t

/-- `Registry.List` (agent.go:240-246). -/
def registryList (r : RegistryM) : List ProviderM :=
  r.map (·.2)

/-- Outcome of `Manager.Spawn`: success, an error return, or a Go runtime
panic (which aborts the process; it is NOT an error return). -/
inductive SpawnOutcome where
  | ok (a : MAgent)
  | err (e : String)
  | panicked
  deriving Inhabited

/-- `Manager.Spawn(ctx, config)` (session manager, lines 177-193):
`provider, ok := m.registry.Get(config.Type); if !ok { provider = m.registry.List()[0] }`.
Indexing `List()[0]` on an empty slice panics with "index out of range";
the model makes that control path explicit as `SpawnOutcome.panicked`.
On success the agent is inserted into the live map. -/
def managerSpawn (r : RegistryM) (m : LiveMap) (cfg : SpawnCfg) :
    SpawnOutcome × LiveMap :=
  let pOpt :=
    match registryGet r cfg.ctype with
    | some p => some p
    | none => (registryList r).head?
  match pOpt with
  | none => (SpawnOutcome.panicked, m)
  | some p =>
    match p.spawnFn cfg with
    | Except.error e => (SpawnOutcome.err e, m)
    | Except.ok a => (SpawnOutcome.ok a, mset m a.aid a)

/-! ## `Registry.WatchAll` (agent.go:262-282)

`merged := make(chan Event, 100)`; one forwarding goroutine per provider,
each running `for event := range ch { select { case merged <- event:
case <-ctx.Done(): return } }`.  The model records the operations the code
performs on `merged`: sends (`buffer`) and closes (`closeCount`).  Each
forwarder relays some prefix of its upstream stream — the whole stream when
the upstream closes first, a shorter prefix when `ctx.Done()` wins a select —
and then returns.  No code path closes `merged`. -/

/-- Observable state of the merged channel: what was sent, and how many
`close` operations were executed on it. -/
structure ChanState where
  buffer : List Nat
  closeCount : Nat
deriving DecidableEq, Repr

/-- `merged <- event`. -/
def chanSend (c : ChanState) (e : Nat) : ChanState :=
  { c with buffer := c.buffer ++ [e] }

/-- One forwarding goroutine: relays the first `relayed` upstream events
(`relayed = upstream.length` when the upstream drains before cancellation),
then returns.  It performs no other operation on `merged`. -/
def forwardLoop (c : ChanState) (upstream : List Nat) (relayed : Nat) : ChanState :=
  (upstream.take relayed).foldl chanSend c

/-- Final state of `merged` once every forwarding goroutine has returned
(upstreams drained / scope cancelled): the fold of all forwarders over the
fresh channel `make(chan Event, 100)`. -/
def watchAllFinal (upstreams : List (List Nat)) (relays : List Nat) : ChanState :=
  (upstreams.zip relays).foldl (fun c pr => forwardLoop c pr.1 pr.2)
    { buffer := [], closeCount := 0 }

/-! ## File-watch `Provider.Discover` (opencode.go:515-566)

`Discover` begins with `p.agents = make(map[string]*OpenCodeAgent)` — it
CLEARS the provider index — and then walks `storage/session/<project>/*.json`,
calling `NewOpenCodeAgent` for every session file.  Go pointer identity of the
freshly allocated `*OpenCodeAgent` is modelled by an allocation tag: each
`NewOpenCodeAgent` call consumes the next tag.  Agents older than `maxAge`
are skipped after allocation (`if p.maxAge > 0 && time.Since(a.LastActivity()) > p.maxAge { continue }`). -/

/-- A session file in the storage tree, with the fields `Discover` reads. -/
structure SessFile where
  sid : String
  title : String
  updated : Int
deriving DecidableEq, Repr

/-- A discovered agent: its identity fields and the allocation tag that
models Go pointer identity (`NewOpenCodeAgent` allocates a fresh struct). -/
structure OCAgent where
  oid : String
  name : String
  lastActivity : Int
  tag : Nat
deriving DecidableEq, Repr

/-- `NewOpenCodeAgent` for file `f`, allocated with tag `t`. -/
def newOCAgent (f : SessFile) (t : Nat) : OCAgent :=
  { oid := f.sid, name := f.title, lastActivity := f.updated, tag := t }

/-- The session-file loop of `Discover`: allocate, apply the max-age filter,
index and collect.  `idx` is `p.agents`, `out` the returned slice, `t` the
next allocation tag. -/
def discoverLoop (now maxAge : Int) :
    List SessFile → AMap OCAgent → List OCAgent → Nat → AMap OCAgent × List OCAgent
  | [], idx, out, _ => (idx, out)
  | f :: rest, idx, out, t =>
    let a := newOCAgent f t
    if maxAge > 0 && decide (now - a.lastActivity > maxAge) then
      discoverLoop now maxAge rest idx out (t + 1)
    else
      discoverLoop now maxAge rest (mset idx a.oid a) (out ++ [a]) (t + 1)

/-- `Provider.Discover`: clear the index, then run the loop.  `base` is the
next allocation tag at call time (allocation tags are globally fresh:
successive calls continue the counter). -/
def discover (files : List SessFile) (now maxAge : Int) (base : Nat) :
    AMap OCAgent × List OCAgent :=
  discoverLoop now maxAge files [] [] base

/-! ## Store (`internal/store`, SQLite)

Rows model only the columns the claims touch; the remaining columns of
`sessions` do not influence `Cleanup`, `AppendOutput` or `GetOutput`.
Times are seconds since epoch.  A column value `Option Int` is `none` for SQL
NULL.  Comparison of two stored timestamps in SQLite is lexicographic on the
driver's fixed-width text format, which agrees with chronological (integer)
order for years 0001-9999. -/

/-- A row of `sessions`: primary key, status, `end_time` (NULLable). -/
structure SessRow where
  rid : String
  status : String
  endTime : Option Int
deriving DecidableEq, Repr

/-- A row of `output_chunks` (insertion order = `id` order, the list order). -/
structure ChunkRow where
  sessionId : String
  chunk : List Nat
deriving DecidableEq, Repr

/-- The store contents the claims touch. -/
structure DB where
  sessions : List SessRow
  chunks : List ChunkRow
deriving DecidableEq, Repr

/-- The empty database (fresh `Store` after `migrate`). -/
def dbEmpty : DB := { sessions := [], chunks := [] }

/-- The Go-side record passed to `SaveSession`.  `endTime` is a Go
`time.Time` VALUE (`SessionRecord.EndTime time.Time`); it cannot be nil.
An "unset" end time is the zero `time.Time`, i.e. 0001-01-01T00:00:00Z. -/
structure SessionRecord where
  rid : String
  status : String
  endTime : Int
deriving DecidableEq, Repr

/-- The zero `time.Time` as seconds since the Unix epoch
(0001-01-01T00:00:00Z = -62135596800). -/
def goTimeZero : Int := -62135596800

/-- How the go-sqlite3 driver binds a `time.Time` parameter: it formats the
value as text.  It never produces SQL NULL — not even for the zero time. -/
def bindTime (t : Int) : Option Int := some t

/-- `Store.SaveSession` (store.go): INSERT ... ON CONFLICT(id) DO UPDATE.
Only the columns modelled here are shown; `end_time` receives the bound
`rec.EndTime`. -/
def saveSession (db : DB) (rec : SessionRecord) : DB :=
  if db.sessions.any fun r => r.rid == rec.rid then
    { db with
      sessions := db.sessions.map fun r =>
        if r.rid == rec.rid then
          { r with status := rec.status, endTime := bindTime rec.endTime }
        else r }
  else
    { db with
      sessions := db.sessions ++
        [{ rid := rec.rid, status := rec.status, endTime := bindTime rec.endTime }] }

/-- `Store.AppendOutput(sessionID, chunk)`: INSERT a new chunk row. -/
def appendOutput (db : DB) (sessionId : String) (chunk : List Nat) : DB :=
  { db with chunks := db.chunks ++ [{ sessionId := sessionId, chunk := chunk }] }

/-- `Store.GetOutput(sessionID)`: SELECT chunk ... WHERE session_id = ?
ORDER BY id ASC, concatenated by `output += chunk`. -/
def getOutput (db : DB) (sessionId : String) : List Nat :=
  (db.chunks.filter fun c => c.sessionId == sessionId).foldl
    (fun acc c => acc ++ c.chunk) []

/-- The WHERE predicate of `Cleanup`'s session/chunk deletes:
`end_time < ? AND end_time IS NOT NULL`.  NULL comparisons are not true in
SQL, so a NULL `end_time` never matches. -/
def cleanupCond (cutoff : Int) (r : SessRow) : Bool :=
  match r.endTime with
  | some t => decide (t < cutoff)
  | none => false

/-- `Store.Cleanup(maxAgeDays)` (store.go:690-718), restricted to the
sessions/output_chunks tables: `cutoff := time.Now().AddDate(0, 0, -maxAgeDays)`;
chunks of matching sessions are deleted first (against the pre-delete
`sessions` table), then the matching sessions. -/
def cleanup (db : DB) (maxAgeDays : Int) (now : Int) : DB :=
  let cutoff := now - maxAgeDays * 86400
  { sessions := db.sessions.filter fun r => !(cleanupCond cutoff r),
    chunks := db.chunks.filter fun c =>
      !(db.sessions.any fun r => r.rid == c.sessionId && cleanupCond cutoff r) }

/-! ## Helper lemmas -/

theorem byteContains_nil (s : List Nat) : byteContains s [] = true := by
  unfold byteContains
  rw [if_neg (by simp)]
  refine List.any_eq_true.mpr ⟨0, List.mem_range.mpr (by omega), ?_⟩
  simp [equalFold]

theorem containsIgnoreCase_empty (s : String) : containsIgnoreCase s "" = true := by
  unfold containsIgnoreCase
  have h : goBytes "" = [] := rfl
  rw [h, byteContains_nil]

theorem mlook_filter_key {V : Type} (m : AMap V) (q : String → Bool) (k : String) :
    mlook (m.filter fun p => q p.1) k = if q k then mlook m k else none := by
  induction m with
  | nil => simp [mlook]
  | cons p rest ih =>
    by_cases hk : p.1 = k
    · subst hk
      by_cases hq : q p.1
      · simp [List.filter_cons, hq, mlook]
      · simp [List.filter_cons, hq, mlook, ih]
    · have hbeq : (p.1 == k) = false := beq_eq_false_iff_ne.mpr hk
      by_cases hq : q p.1
      · simp [List.filter_cons, hq, mlook, hbeq, ih]
      · simp [List.filter_cons, hq, mlook, hbeq, ih]

theorem mlook_mset {V : Type} (m : AMap V) (k k2 : String) (v : V) :
    mlook (mset m k v) k2 = if k == k2 then some v else mlook m k2 := by
  unfold mset
  by_cases h : k = k2
  · subst h
    simp [mlook]
  · have hbeq : (k == k2) = false := beq_eq_false_iff_ne.mpr h
    have h2 := mlook_filter_key m (fun x => x ≠ k) k2
    simp only [mlook, hbeq, Bool.false_eq_true, if_false]
    rw [h2]
    rw [if_pos (by simp only [decide_eq_true_eq]; exact fun hk => h hk.symm)]

theorem mlook_foldl_mset (S : List MAgent) (m : LiveMap) (k : String) :
    mlook (S.foldl (fun acc a => mset acc a.aid a) m) k =
      match lastMatch S k with
      | some b => some b
      | none => mlook m k := by
  induction S generalizing m with
  | nil => simp [lastMatch]
  | cons a rest ih =>
    simp only [List.foldl_cons, lastMatch]
    rw [ih]
    cases hrest : lastMatch rest k with
    | some b => simp
    | none =>
      simp only []
      rw [mlook_mset]
      by_cases hk : a.aid = k
      · simp [hk]
      · simp [beq_eq_false_iff_ne.mpr hk, hk]

theorem lastMatch_isSome (S : List MAgent) (k : String) :
    (lastMatch S k).isSome = S.any fun a => a.aid == k := by
  induction S with
  | nil => simp [lastMatch]
  | cons a rest ih =>
    simp only [lastMatch, List.any_cons]
    cases hrest : lastMatch rest k with
    | some b =>
      have : (rest.any fun a => a.aid == k) = true := by
        rw [← ih, hrest]; rfl
      simp [this]
    | none =>
      have hr : (rest.any fun a => a.aid == k) = false := by
        rw [← ih, hrest]; rfl
      by_cases hk : a.aid = k
      · simp [hk, hr]
      · simp [beq_eq_false_iff_ne.mpr hk, hr]

/-- The early-return value a triggering part produces in `determineStatus`. -/
def partOutcome (now : Int) (p : Part) : St × Int :=
  if p.state == "running" then (St.running, now) else (St.errored, p.created)

theorem scanParts_eq_find (delta now : Int) (ps : List Part) :
    scanParts delta now ps = (ps.find? (partTriggers delta)).map (partOutcome now) := by
  induction ps with
  | nil => simp [scanParts]
  | cons p rest ih =>
    by_cases hr : p.state == "running"
    · have ht : partTriggers delta p = true := by simp [partTriggers, hr]
      simp [scanParts, hr, List.find?_cons_of_pos _ ht, partOutcome]
    · by_cases he : (p.state == "error" && decide (delta < 300000)) = true
      · have ht : partTriggers delta p = true := by simp [partTriggers, he]
        rw [List.find?_cons_of_pos _ ht]
        simp only [scanParts, hr, Bool.false_eq_true, if_false, he, if_true]
        simp [partOutcome, hr]
      · have ht : partTriggers delta p = false := by
          simp only [partTriggers]
          rw [Bool.or_eq_false_iff]
          exact ⟨by simpa using hr, by simpa using he⟩
        rw [List.find?_cons_of_neg _ (by simp [ht])]
        simp only [scanParts, hr, Bool.false_eq_true, if_false, he]
        simpa using ih

theorem scanMsgs_eq_find (delta now : Int) (msgs : List Msg) :
    scanMsgs delta now msgs =
      ((msgs.flatMap (·.parts)).find? (partTriggers delta)).map (partOutcome now) := by
  induction msgs with
  | nil => simp [scanMsgs]
  | cons m rest ih =>
    simp only [scanMsgs, List.flatMap_cons, List.find?_append, scanParts_eq_find]
    cases hf : m.parts.find? (partTriggers delta) with
    | some p => simp
    | none => simpa using ih

/-- `determineStatus` equals its reference-policy (spec-worded) reading. -/
theorem determineStatus_spec_eq (la : Int) (msgs : List Msg) (now : Int) :
    determineStatus la msgs now = determineStatusSpec la msgs now := by
  unfold determineStatus determineStatusSpec
  cases hl : msgs.getLast? with
  | none => rfl
  | some lastMsg =>
    simp only [scanMsgs_eq_find]
    cases hf : (msgs.flatMap (·.parts)).find? (partTriggers (now - lastMsg.created)) with
    | none => rfl
    | some p => simp [partOutcome]

theorem closeCount_chanSend (c : ChanState) (e : Nat) :
    (chanSend c e).closeCount = c.closeCount := rfl

theorem closeCount_forwardLoop (c : ChanState) (u : List Nat) (r : Nat) :
    (forwardLoop c u r).closeCount = c.closeCount := by
  unfold forwardLoop
  induction (u.take r) generalizing c with
  | nil => rfl
  | cons e rest ih => simp only [List.foldl_cons]; rw [ih, closeCount_chanSend]

/-- The max-age filter of `Discover`, phrased on the session file. -/
def keepFile (now maxAge : Int) (f : SessFile) : Bool :=
  !(maxAge > 0 && decide (now - f.updated > maxAge))

theorem discoverLoop_ids (now maxAge : Int) (files : List SessFile)
    (idx : AMap OCAgent) (out : List OCAgent) (t : Nat) :
    ((discoverLoop now maxAge files idx out t).2).map (·.oid) =
      out.map (·.oid) ++ (files.filter (keepFile now maxAge)).map (·.sid) := by
  induction files generalizing idx out t with
  | nil => simp [discoverLoop]
  | cons f rest ih =>
    simp only [discoverLoop]
    by_cases hskip : (maxAge > 0 && decide (now - (newOCAgent f t).lastActivity > maxAge)) = true
    · rw [if_pos hskip, ih]
      have hkeep : keepFile now maxAge f = false := by
        show (!(maxAge > 0 && decide (now - f.updated > maxAge))) = false
        rw [show (maxAge > 0 && decide (now - f.updated > maxAge)) = true from hskip]
        rfl
      simp [List.filter_cons, hkeep]
    · rw [if_neg hskip, ih]
      have hkeep : keepFile now maxAge f = true := by
        show (!(maxAge > 0 && decide (now - f.updated > maxAge))) = true
        rw [show (maxAge > 0 && decide (now - f.updated > maxAge)) = false from
          eq_false_of_ne_true hskip]
        rfl
      simp [List.filter_cons, hkeep, newOCAgent]

theorem discoverLoop_tags (now maxAge : Int) (files : List SessFile)
    (idx : AMap OCAgent) (out : List OCAgent) (t : Nat) :
    ∀ a ∈ (discoverLoop now maxAge files idx out t).2,
      a ∈ out ∨ (t ≤ a.tag ∧ a.tag < t + files.length) := by
  induction files generalizing idx out t with
  | nil => intro a ha; exact Or.inl (by simpa [discoverLoop] using ha)
  | cons f rest ih =>
    intro a ha
    simp only [discoverLoop] at ha
    by_cases hskip : (maxAge > 0 && decide (now - (newOCAgent f t).lastActivity > maxAge)) = true
    · rw [if_pos hskip] at ha
      rcases ih _ _ (t + 1) a ha with h | h
      · exact Or.inl h
      · exact Or.inr ⟨by omega, by simp only [List.length_cons]; omega⟩
    · rw [if_neg hskip] at ha
      rcases ih _ _ (t + 1) a ha with h | h
      · rcases List.mem_append.mp h with h2 | h2
        · exact Or.inl h2
        · have : a = newOCAgent f t := by simpa using h2
          exact Or.inr ⟨by simp [this, newOCAgent], by simp [this, newOCAgent]⟩
      · exact Or.inr ⟨by omega, by simp only [List.length_cons]; omega⟩

/-! ## Claim theorems -/

/-- C1 (counterexample): the claim "once cancelled, always cancelled" fails on
the code.  Concretely: `Terminate()` sets the status to `cancelled`, but a
subsequent `Refresh()` (session file updated at 500 ms, one part-less message
created at 0 ms, now = 1000 ms) re-derives the status via `determineStatus`
and stores `running` — the cancelled status did not persist. -/
theorem C1_cancelled_overwritten_cex :
    (agTerminate { status := St.idle, lastActivity := 0 }).status = St.cancelled ∧
    (agRefresh (agTerminate { status := St.idle, lastActivity := 0 }) 500
      [{ created := 0, parts := [] }] 1000).status = St.running ∧
    St.running ≠ St.cancelled := by
  decide

/-- C1 (amended): `Terminate()` does set the status to `cancelled`, but
`cancelled` is not latched: every later status recomputation — the file-watch
agent's `Refresh()`/`determineStatus()`, or the CLI agent's `Update()` —
derives the status afresh from observed state and never yields `cancelled`,
so the cancelled status survives only until the next recomputation. -/
theorem C1_cancelled_not_latched :
    (∀ a : AgState, (agTerminate a).status = St.cancelled) ∧
    (∀ (la : Int) (msgs : List Msg) (now : Int),
      (determineStatus la msgs now).1 ≠ St.cancelled) ∧
    (∀ (a : AgState) (updated : Int) (msgs : List Msg) (now : Int),
      (agRefresh a updated msgs now).status ≠ St.cancelled) ∧
    (∀ (a : AgState) (updated now : Int),
      (cliUpdate a updated now).status ≠ St.cancelled) := by
  have hparts : ∀ (delta now : Int) (ps : List Part) (r : St × Int),
      scanParts delta now ps = some r → r.1 ≠ St.cancelled := by
    intro delta now ps
    induction ps with
    | nil => intro r h; simp [scanParts] at h
    | cons p rest ih =>
      intro r h
      simp only [scanParts] at h
      split_ifs at h with h1 h2
      · cases h; simp
      · cases h; simp
      · exact ih r h
  have hmsgs : ∀ (delta now : Int) (ms : List Msg) (r : St × Int),
      scanMsgs delta now ms = some r → r.1 ≠ St.cancelled := by
    intro delta now ms
    induction ms with
    | nil => intro r h; simp [scanMsgs] at h
    | cons m rest ih =>
      intro r h
      simp only [scanMsgs] at h
      cases hp : scanParts delta now m.parts with
      | some r2 =>
        rw [hp] at h
        cases h
        exact hparts delta now m.parts r hp
      | none =>
        rw [hp] at h
        exact ih r h
  have hds : ∀ (la : Int) (msgs : List Msg) (now : Int),
      (determineStatus la msgs now).1 ≠ St.cancelled := by
    intro la msgs now
    unfold determineStatus
    cases hl : msgs.getLast? with
    | none => simp
    | some lastMsg =>
      dsimp only
      cases hs : scanMsgs (now - lastMsg.created) now msgs with
      | some r => exact hmsgs (now - lastMsg.created) now msgs r hs
      | none => split_ifs <;> simp
  refine ⟨fun a => rfl, hds, fun a updated msgs now => hds updated msgs now, ?_⟩
  intro a updated now
  unfold cliUpdate cliDetermineStatus
  dsimp only
  split_ifs <;> simp

/-- Witness for C1_cancelled_not_latched at concrete inputs. -/
theorem C1_cancelled_not_latched_witness :
    (agTerminate { status := St.idle, lastActivity := 0 }).status = St.cancelled ∧
    ¬ ((agRefresh (agTerminate { status := St.idle, lastActivity := 0 }) 500
        [{ created := 0, parts := [] }] 1000).status = St.cancelled) :=
  ⟨C1_cancelled_not_latched.1 _,
   C1_cancelled_not_latched.2.2.1 (agTerminate { status := St.idle, lastActivity := 0 })
     500 [{ created := 0, parts := [] }] 1000⟩

/-- C2 (code bug, evaluation at the failing input): a session saved through
`Store.SaveSession` while still active carries the zero `time.Time` as its
`EndTime` (the record field is a non-nullable `time.Time` value); the sqlite
driver binds it as the non-NULL timestamp 0001-01-01T00:00:00Z.  `Cleanup(0)`
computes `cutoff = now` and its predicate `end_time < ? AND end_time IS NOT
NULL` therefore matches the row: the active session — and its output chunks —
are deleted, contradicting "active sessions are never deleted by cleanup". -/
theorem C2_cleanup_deletes_active_session :
    (saveSession dbEmpty { rid := "s1", status := "running", endTime := goTimeZero }).sessions
      = [{ rid := "s1", status := "running", endTime := some goTimeZero }] ∧
    (cleanup (appendOutput
        (saveSession dbEmpty { rid := "s1", status := "running", endTime := goTimeZero })
        "s1" (goBytes "hello")) 0 1760000000).sessions = [] ∧
    (cleanup (appendOutput
        (saveSession dbEmpty { rid := "s1", status := "running", endTime := goTimeZero })
        "s1" (goBytes "hello")) 0 1760000000).chunks = [] := by
  decide

/-- C3 (code bug, evaluation at the failing input): with zero registered
providers `Manager.Spawn` does not return an error — `m.registry.List()[0]`
indexes an empty slice and panics.  With a registered provider whose type
does not match the config, Spawn does fall back to that provider (second
conjunct: the outcome is the fallback provider's own result). -/
theorem C3_spawn_empty_registry_panics :
    managerSpawn [] [] { ctype := "opencode", name := "n", directory := "d", prompt := "p" }
      = (SpawnOutcome.panicked, []) ∧
    (managerSpawn
        (registryRegister []
          { ptype := "opencode", spawnFn := fun _ => Except.error "SpawnFailed" })
        [] { ctype := "zzz", name := "n", directory := "d", prompt := "p" }).1
      = SpawnOutcome.err "SpawnFailed" :=
  ⟨rfl, rfl⟩

/-- C4 (counterexample): the claim says that after scope cancellation the
merged channel of `Registry.WatchAll` is closed exactly once once all
upstreams drain.  With one provider whose single event is fully relayed (the
upstream has drained and the forwarding goroutine returned), the number of
close operations performed on `merged` is 0, not 1: no code path in
`WatchAll` closes the channel. -/
theorem C4_merged_close_cex :
    (watchAllFinal [[7]] [1]).closeCount = 0 ∧ (0 : Nat) ≠ 1 := by
  decide

/-- C4 (amended): the merged channel returned by `Registry.WatchAll` is never
closed.  The forwarding goroutines stop on upstream close or on
`ctx.Done()`, but no close operation is ever executed on `merged` — for any
upstream streams and any relay prefixes, the close count is 0.  (The
manager's event loop exits via `ctx.Done()` instead.) -/
theorem C4_merged_never_closed (upstreams : List (List Nat)) (relays : List Nat) :
    (watchAllFinal upstreams relays).closeCount = 0 := by
  unfold watchAllFinal
  have h : ∀ (l : List (List Nat × Nat)) (c : ChanState),
      (l.foldl (fun c pr => forwardLoop c pr.1 pr.2) c).closeCount = c.closeCount := by
    intro l
    induction l with
    | nil => intro c; rfl
    | cons pr rest ih =>
      intro c
      simp only [List.foldl_cons]
      rw [ih, closeCount_forwardLoop]
  exact h (upstreams.zip relays) { buffer := [], closeCount := 0 }

/-- C5 (counterexample): the reference policy as claimed gives a part in
state `running` priority over a recently-errored part.  The code scans parts
in order and returns at the FIRST part that is `running` or recently
`error`: with the part list `[error, running]` (message created at 0 ms,
now = 1000 ms, so Δ = 1 s < 5 min) `determineStatus` returns `errored`,
although a part in state `running` exists. -/
theorem C5_part_priority_cex :
    (determineStatus 0
      [{ created := 0,
         parts := [{ state := "error", created := 0 },
                   { state := "running", created := 0 }] }] 1000).1 = St.errored ∧
    (([{ state := "error", created := 0 },
        { state := "running", created := 0 }] : List Part).any
      fun p => p.state == "running") = true ∧
    St.errored ≠ St.running := by
  decide

/-- C5 (amended): the status derivation follows the reference policy with the
rules applied per part in scan order: the FIRST part that is either in state
`running` or in state `error` with Δ < 5 min decides (running ⇒ `running`
and last_activity refreshed to now; error ⇒ `errored` with last_activity set
to that part's creation time); with no such part, no messages ⇒ `pending`,
otherwise Δ < 60 s ⇒ `running`, Δ < 30 min ⇒ `idle`, else `completed`,
where Δ = now minus the last message's creation time. -/
theorem C5_status_policy_scan_order (la : Int) (msgs : List Msg) (now : Int) :
    determineStatus la msgs now = determineStatusSpec la msgs now :=
  determineStatus_spec_eq la msgs now

/-- C6 (confirmed): after `Manager.Refresh` with discovery result `S`, the
live map contains exactly the agents of `S`: looking up any id yields the
(last) discovered agent with that id — in particular every id previously in
the live map but absent from `S` is gone, and every discovered agent
overwrote the entry under its id, regardless of the prior map. -/
theorem C6_refresh_reconciles (m : LiveMap) (S : List MAgent) (k : String) :
    mlook (managerRefresh m S) k = lastMatch S k := by
  show mlook ((S.foldl (fun acc a => mset acc a.aid a) m).filter
      fun p => S.any fun a => a.aid == p.1) k = lastMatch S k
  have hiff := lastMatch_isSome S k
  rw [mlook_filter_key (S.foldl (fun acc a => mset acc a.aid a) m)
        (fun x => S.any fun a => a.aid == x) k,
      mlook_foldl_mset]
  cases hl : lastMatch S k with
  | some b =>
    rw [hl] at hiff
    rw [if_pos (by rw [← hiff]; rfl)]
  | none =>
    rw [hl] at hiff
    rw [if_neg (by rw [← hiff]; simp)]

/-- C7 (counterexample): `Provider.Discover` clears `p.agents` and allocates
a fresh `*OpenCodeAgent` for every session file on every call.  With one
unchanged session file, the first call indexes the allocation with tag 0,
the second call (the allocation counter having advanced) indexes a NEW
allocation with tag 1: the surviving id is bound to a freshly built copy,
not the same instance — refuting identity preservation. -/
theorem C7_identity_cex :
    mlook (discover [{ sid := "s", title := "t", updated := 0 }] 0 0 0).1 "s"
      = some { oid := "s", name := "t", lastActivity := 0, tag := 0 } ∧
    mlook (discover [{ sid := "s", title := "t", updated := 0 }] 0 0 1).1 "s"
      = some { oid := "s", name := "t", lastActivity := 0, tag := 1 } ∧
    (0 : Nat) ≠ 1 := by
  decide

/-- C7 (amended): two successive `Discover` calls with unchanged upstream
yield identical agent id sequences, but identity is NOT preserved: the index
is cleared and rebuilt, so every agent of the second call is a fresh
allocation, distinct from every instance of the first call. -/
theorem C7_discover_ids_stable_instances_fresh
    (files : List SessFile) (now maxAge : Int) (b : Nat) :
    ((discover files now maxAge b).2).map (·.oid)
      = ((discover files now maxAge (b + files.length)).2).map (·.oid) ∧
    ∀ a1 ∈ (discover files now maxAge b).2,
      ∀ a2 ∈ (discover files now maxAge (b + files.length)).2, a1.tag ≠ a2.tag := by
  constructor
  · unfold discover
    rw [discoverLoop_ids, discoverLoop_ids]
  · intro a1 h1 a2 h2
    rcases discoverLoop_tags now maxAge files [] [] b a1 h1 with h | h
    · simp at h
    · rcases discoverLoop_tags now maxAge files [] [] (b + files.length) a2 h2 with h2m | h2m
      · simp at h2m
      · omega

/-- Witness for C7_discover_ids_stable_instances_fresh at one session file. -/
theorem C7_discover_witness :
    ((discover [{ sid := "s", title := "t", updated := 0 }] 0 0 0).2).map (·.oid)
      = ((discover [{ sid := "s", title := "t", updated := 0 }] 0 0
          (0 + [({ sid := "s", title := "t", updated := 0 } : SessFile)].length)).2).map (·.oid) ∧
    ({ oid := "s", name := "t", lastActivity := 0, tag := 0 } : OCAgent).tag ≠
      ({ oid := "s", name := "t", lastActivity := 0, tag := 1 } : OCAgent).tag := by
  have h := C7_discover_ids_stable_instances_fresh
    [{ sid := "s", title := "t", updated := 0 }] 0 0 0
  exact ⟨h.1, h.2 _ (by decide) _ (by decide)⟩

/-- C8 (confirmed): appending two chunks for session `s` and reading the
output yields the previous output followed by `c1` then `c2`; in particular
from an empty store `GetOutput` returns exactly `c1 ++ c2`, and by induction
all appended chunks concatenate in insertion order (`ORDER BY id ASC` is the
insertion order of the autoincrement key). -/
theorem C8_append_output_concat (db : DB) (s : String) (c1 c2 : List Nat) :
    getOutput (appendOutput (appendOutput db s c1) s c2) s
      = getOutput db s ++ c1 ++ c2 := by
  unfold appendOutput getOutput
  simp only [List.filter_append, List.foldl_append, List.filter_cons, List.filter_nil,
    beq_self_eq_true, if_true, List.foldl_cons, List.foldl_nil]

/-- C9 (confirmed): `Manager.Terminate(id)` and `Manager.SendInput(id, text)`
on an id absent from the live map return a nil error and leave the live map
unchanged; on a present id they delegate, returning exactly the agent's own
result (and never mutate the map). -/
theorem C9_unknown_id_noop (m : LiveMap) (id input : String) :
    (mlook m id = none →
      managerTerminate m id = (none, m) ∧ managerSendInput m id input = (none, m)) ∧
    (∀ a, mlook m id = some a →
      managerTerminate m id = (a.termResult, m) ∧
      managerSendInput m id input = (a.inputResult input, m)) := by
  constructor
  · intro h
    unfold managerTerminate managerSendInput
    rw [h]
    exact ⟨rfl, rfl⟩
  · intro a h
    unfold managerTerminate managerSendInput
    rw [h]
    exact ⟨rfl, rfl⟩

/-- Witness for C9_unknown_id_noop: an empty map (unknown id), and a
singleton map (known id, delegation). -/
theorem C9_unknown_id_noop_witness :
    (managerTerminate [] "x" = (none, ([] : LiveMap)) ∧
      managerSendInput [] "x" "hi" = (none, ([] : LiveMap))) ∧
    managerTerminate
        [("a", { aid := "a", name := "n", directory := "d", currentTask := "t",
                 termResult := some "TerminateFailed", inputResult := fun _ => none })] "a"
      = (some "TerminateFailed",
          [("a", { aid := "a", name := "n", directory := "d", currentTask := "t",
                   termResult := some "TerminateFailed", inputResult := fun _ => none })]) := by
  refine ⟨(C9_unknown_id_noop [] "x" "hi").1 rfl, ?_⟩
  exact ((C9_unknown_id_noop
    [("a", { aid := "a", name := "n", directory := "d", currentTask := "t",
             termResult := some "TerminateFailed", inputResult := fun _ => none })]
    "a" "hi").2 _ rfl).1

/-- C10 (confirmed): `Manager.Search("")` returns every agent in the live
map: `containsIgnoreCase` holds for the empty substring (the window at
i = 0 satisfies `equalFold("", "")`), so no agent is filtered out. -/
theorem C10_search_empty_returns_all (m : LiveMap) :
    managerSearch m "" = m.map (·.2) := by
  unfold managerSearch
  rw [List.filter_eq_self]
  intro a _
  simp [containsIgnoreCase_empty]

end AUTO
